import Mathlib

/-!
Verification of the file classification and relocation routine of
`src/fileorg.py` (File-Organizer).

The Python source is shallowly embedded: filenames and metadata values
are `String`s, the worker loop (`Worker.run`) becomes a recursive
function over the file list, and the Qt signal emissions
(`progress_update.emit`, `log_update.emit`, `finished_signal.emit`)
become constructors of an `Event` appended to an event list, in
emission order.  The environment the Python code interacts with —
EXIF metadata reads, file modification times, the success or failure of
each `shutil.move`, and the value of the cooperative `_is_running`
flag at each per-file check — is supplied as input data.
-/

namespace FileOrg

/-- Python `s.split(sep)` for a single-character separator, acting on
the character list: `[] ↦ [[]]`, and a separator character closes the
current (possibly empty) segment, exactly as in CPython
(`"".split('.') == [""]`, `"a..b".split('.') == ["a","","b"]`). -/
def splitChars (sep : Char) : List Char → List (List Char)
  | [] => [[]]
  | c :: cs =>
    if c = sep then [] :: splitChars sep cs
    else
      match splitChars sep cs with
      | [] => [[c]]
      | h :: t => (c :: h) :: t

/-- Python `s.split(sep)` at the `String` level. -/
def pySplit (s : String) (sep : Char) : List String :=
  (splitChars sep s.data).map String.mk

/-- Python `'.' in f` for filenames (single-character substring test). -/
def hasDot (f : String) : Bool := f.data.contains '.'

/-- Python `f.lower()`, character by character (`Char.toLower` agrees
with Python on the ASCII range, which is all the extension comparison
against `PHOTO_EXTENSIONS` inspects). -/
def pyLower (s : String) : String := String.mk (s.data.map Char.toLower)

/-- `PHOTO_EXTENSIONS` from `fileorg.py` line 16 (a Python set literal;
membership is all that is used, so a list models it). -/
def PHOTO_EXTENSIONS : List String := ["jpg", "jpeg", "png", "gif", "bmp", "tiff"]

/-- Python `f.lower().split('.')[-1]` from `fileorg.py` line 53. -/
def lowerExt (f : String) : String := (pySplit (pyLower f) '.').getLastD ""

/-- The two organization modes of `Worker.run` (`mode = "photo"` /
`mode = "default"`). -/
inductive Mode
  | photo
  | default
  deriving DecidableEq

/-- The mode decision of `Worker.run`, line 53:
`all(f.lower().split('.')[-1] in PHOTO_EXTENSIONS for f in files if '.' in f)`.
The generator's `if '.' in f` clause filters out dotless filenames
before the membership test. -/
def determine_mode (files : List String) : Mode :=
  if files.all (fun f => !(hasDot f) || PHOTO_EXTENSIONS.contains (lowerExt f))
  then .photo else .default

/-- Outcome of the `try` block of `get_image_year` (lines 23-31) up to
the point where a value would be returned: `error` models any exception
raised inside the block (`Image.open` failing on a corrupt or non-image
file, `_getexif` failing, a non-string tag value lacking `.split`);
`ok items` models `img._getexif()` yielding the association of resolved
tag names (`TAGS.get(tag, tag)`) to string values, with `ok []`
covering a `None`/empty (falsy) `exif_data`. -/
inductive ExifOutcome
  | error
  | ok (items : List (String × String))
  deriving DecidableEq

/-- The `for tag, value in exif_data.items()` loop of lines 27-28:
first value whose resolved tag name equals `"DateTimeOriginal"`. -/
def findDateTimeOriginal : List (String × String) → Option String
  | [] => none
  | (tag, value) :: rest =>
    if tag = "DateTimeOriginal" then some value else findDateTimeOriginal rest

/-- `get_image_year` (lines 18-32).  `mtimeYear` models
`datetime.fromtimestamp(os.path.getmtime(filepath)).strftime("%Y")`,
the year of the file's last-modification time; it is reached when the
`try` block raises (`except Exception: pass`) or finds no
`DateTimeOriginal` tag.  A found tag value `v` yields
`v.split(":")[0]`. -/
def get_image_year (exif : ExifOutcome) (mtimeYear : String) : String :=
  match exif with
  | .error => mtimeYear
  | .ok items =>
    match findDateTimeOriginal items with
    | some value => (pySplit value ':').headD ""
    | none => mtimeYear

/-- A regular file at the top level of the target folder, together with
the environment's answers for it: the EXIF read outcome, the
modification-time year string, and the outcome of `shutil.move`
(`none` = the move succeeds; `some e` = it raises an exception whose
text is `e`). -/
structure FileEntry where
  name : String
  exif : ExifOutcome
  mtimeYear : String
  moveResult : Option String
  deriving DecidableEq

/-- The destination subfolder name computed per file by `Worker.run`
lines 66-71: `"Фотографии {year}"` in photo mode, and
`filename.split('.')[-1] if '.' in filename else "без_расширения"` in
default mode.  (Note: line 70 does not lower-case the extension.) -/
def destination_for (mode : Mode) (f : FileEntry) : String :=
  match mode with
  | .photo => "Фотографии " ++ get_image_year f.exif f.mtimeYear
  | .default =>
    if hasDot f.name then (pySplit f.name '.').getLastD "" else "без_расширения"

/-- One emitted signal of `Worker.run`, in source order of the emit
sites: each `log_update.emit` site becomes one constructor carrying the
data interpolated into its (Russian) message string. -/
inductive Event
  | progress (p : Nat)
  | logNoFiles
  | logPhotoMode
  | logDefaultMode
  | logCancelled
  | logCreatedFolder (dir : String)
  | logMoved (filename dir : String)
  | logMoveError (filename err : String)
  | logDone
  | finished
  deriving DecidableEq

/-- Mutable state threaded through the worker loop: subfolder names
existing under the target folder (for the `os.path.exists` /
`os.makedirs` step), the successfully moved files with their
destination subfolder, the `processed` counter, and the events emitted
so far. -/
structure RunState where
  dirs : List String
  moved : List (String × String)
  processed : Nat
  events : List Event
  deriving DecidableEq

/-- The body of one non-cancelled iteration of the `for filename in
files` loop (lines 65-83): compute the destination, create it if
absent (logging the creation), attempt the move (logging success or
failure), increment `processed`, emit the progress percentage.
`int((processed / total) * 100)` is modelled by natural-number
truncated division `processed * 100 / total`. -/
def processFile (mode : Mode) (total : Nat) (f : FileEntry) (st : RunState) : RunState :=
  let dir := destination_for mode f
  let st1 : RunState :=
    if st.dirs.contains dir then st
    else { st with dirs := st.dirs ++ [dir],
                   events := st.events ++ [.logCreatedFolder dir] }
  let st2 : RunState :=
    match f.moveResult with
    | none => { st1 with moved := st1.moved ++ [(f.name, dir)],
                         events := st1.events ++ [.logMoved f.name dir] }
    | some e => { st1 with events := st1.events ++ [.logMoveError f.name e] }
  { st2 with processed := st2.processed + 1,
             events := st2.events ++ [.progress ((st2.processed + 1) * 100 / total)] }

/-- The `for filename in files` loop (lines 61-83).  `running i` is the
value of the cooperative flag `self._is_running` as read by the check
at the top of the iteration handling the `i`-th file (0-based); a
`false` read emits the cancellation log event and breaks. -/
def runLoop (running : Nat → Bool) (mode : Mode) (total : Nat) :
    List FileEntry → Nat → RunState → RunState
  | [], _, st => st
  | f :: rest, i, st =>
    if running i then
      runLoop running mode total rest (i + 1) (processFile mode total f st)
    else
      { st with events := st.events ++ [.logCancelled] }

/-- The target folder's top level: its regular files (with their
environment data) and its subdirectory names.  `os.listdir` filtered by
`os.path.isfile` (line 45) yields exactly `files`. -/
structure Folder where
  files : List FileEntry
  dirs : List String
  deriving DecidableEq

namespace Worker

/-- `Worker.run` (lines 44-85): the zero-file early return (lines
47-50), the mode decision and its log line (lines 52-58), the per-file
loop, and the final completion log and signal (lines 84-85). -/
def run (running : Nat → Bool) (folder : Folder) : RunState :=
  let total := folder.files.length
  if total = 0 then
    { dirs := folder.dirs, moved := [], processed := 0,
      events := [.logNoFiles, .finished] }
  else
    let mode := determine_mode (folder.files.map FileEntry.name)
    let modeLog : Event :=
      match mode with
      | .photo => .logPhotoMode
      | .default => .logDefaultMode
    let st := runLoop running mode total folder.files 0
      { dirs := folder.dirs, moved := [], processed := 0, events := [modeLog] }
    { st with events := st.events ++ [.logDone, .finished] }

end Worker

/-- The folder's top level after a run.  A successfully moved file has
left the top level (it now lives inside its destination subfolder) —
unless its destination subfolder name is the empty string: that arises
in Default mode for a filename ending in `'.'` (`ext = ''`), where
`os.path.join(self.folder, '')` is the folder itself, so
`shutil.move(filepath, filepath)` succeeds as a no-op and the file
stays at the top level.  Files whose move raised, or that were never
reached because of cancellation, also remain.  The created destination
subfolders are the run state's `dirs`. -/
def folderAfter (running : Nat → Bool) (folder : Folder) : Folder :=
  let st := Worker.run running folder
  { files := folder.files.filter
      (fun f => !(st.moved.any (fun m => m.1 == f.name && m.2 != ""))),
    dirs := st.dirs }

/-- The sequence of values carried by `progress_update` emissions, in
emission order. -/
def progressValues (evts : List Event) : List Nat :=
  evts.filterMap fun e =>
    match e with
    | .progress p => some p
    | _ => none

end FileOrg

/-! ### Helper lemmas about the Python string-splitting model -/

namespace FileOrg

lemma splitChars_ne_nil (sep : Char) (cs : List Char) : splitChars sep cs ≠ [] := by
  induction cs with
  | nil => simp [splitChars]
  | cons c cs ih =>
    simp only [splitChars]
    split
    · simp
    · match h : splitChars sep cs with
      | [] => simp
      | x :: xs => simp

lemma splitChars_append_sep (sep : Char) (l r : List Char) (h : sep ∉ l) :
    splitChars sep (l ++ sep :: r) = l :: splitChars sep r := by
  induction l with
  | nil => simp [splitChars]
  | cons c cs ih =>
    have hc : c ≠ sep := fun hcs => h (hcs ▸ List.mem_cons_self c cs)
    have hcs' : sep ∉ cs := fun hm => h (List.mem_cons_of_mem c hm)
    simp only [List.cons_append, splitChars, if_neg hc, List.append_eq]
    rw [ih hcs']

/-- Splitting `y ++ ":" ++ rest` at `':'` when `y` contains no `':'`
yields `y` as the first element: the model of
`value.split(":")[0]` on a value with a well-formed prefix. -/
lemma pySplit_headD (y rest : String) (h : ':' ∉ y.data) :
    (pySplit (y ++ ":" ++ rest) ':').headD "" = y := by
  have hdata : (y ++ ":" ++ rest).data = y.data ++ ':' :: rest.data := by
    rw [String.data_append, String.data_append, List.append_assoc]
    rfl
  rw [pySplit, hdata, splitChars_append_sep ':' y.data rest.data h]
  simp only [List.map_cons, List.headD_cons]

end FileOrg

/-! ### Characterizing one loop iteration -/

namespace FileOrg

/-- The events appended by a single (non-cancelled) loop iteration. -/
def stepDelta (mode : Mode) (total : Nat) (f : FileEntry) (st : RunState) : List Event :=
  let dir := destination_for mode f
  (if st.dirs.contains dir then [] else [Event.logCreatedFolder dir]) ++
  (match f.moveResult with
   | none => [Event.logMoved f.name dir]
   | some e => [Event.logMoveError f.name e]) ++
  [Event.progress ((st.processed + 1) * 100 / total)]

/-- The entry appended to the moved list by one iteration, if any. -/
def movedEntry (mode : Mode) (f : FileEntry) : Option (String × String) :=
  match f.moveResult with
  | none => some (f.name, destination_for mode f)
  | some _ => none

lemma processFile_events (mode : Mode) (total : Nat) (f : FileEntry) (st : RunState) :
    (processFile mode total f st).events = st.events ++ stepDelta mode total f st := by
  rcases h : f.moveResult with _ | e <;>
    by_cases hd : destination_for mode f ∈ st.dirs <;>
      simp [processFile, stepDelta, h, hd]

lemma processFile_processed (mode : Mode) (total : Nat) (f : FileEntry) (st : RunState) :
    (processFile mode total f st).processed = st.processed + 1 := by
  rcases h : f.moveResult with _ | e <;>
    by_cases hd : destination_for mode f ∈ st.dirs <;>
      simp [processFile, h, hd]

lemma processFile_moved (mode : Mode) (total : Nat) (f : FileEntry) (st : RunState) :
    (processFile mode total f st).moved = st.moved ++ (movedEntry mode f).toList := by
  rcases h : f.moveResult with _ | e <;>
    by_cases hd : destination_for mode f ∈ st.dirs <;>
      simp [processFile, movedEntry, h, hd]

lemma stepDelta_finished_not_mem (mode : Mode) (total : Nat) (f : FileEntry) (st : RunState) :
    Event.finished ∉ stepDelta mode total f st := by
  rcases h : f.moveResult with _ | e <;>
    by_cases hd : destination_for mode f ∈ st.dirs <;>
      simp [stepDelta, h, hd]

lemma progressValues_stepDelta (mode : Mode) (total : Nat) (f : FileEntry) (st : RunState) :
    progressValues (stepDelta mode total f st) = [(st.processed + 1) * 100 / total] := by
  rcases h : f.moveResult with _ | e <;>
    by_cases hd : destination_for mode f ∈ st.dirs <;>
      simp [stepDelta, progressValues, h, hd, List.filterMap_append, List.filterMap_cons]

lemma stepDelta_error_mem (mode : Mode) (total : Nat) (f : FileEntry) (st : RunState)
    (e : String) (he : f.moveResult = some e) :
    Event.logMoveError f.name e ∈ stepDelta mode total f st := by
  by_cases hd : destination_for mode f ∈ st.dirs <;>
    simp [stepDelta, he, hd]

end FileOrg

/-! ### The loop as a fold, and the cancellation split -/

namespace FileOrg

/-- The worker loop restricted to iterations where the flag reads true. -/
def runFold (mode : Mode) (total : Nat) (files : List FileEntry) (st : RunState) : RunState :=
  files.foldl (fun s f => processFile mode total f s) st

lemma runFold_cons (mode : Mode) (total : Nat) (f : FileEntry) (files : List FileEntry)
    (st : RunState) :
    runFold mode total (f :: files) st = runFold mode total files (processFile mode total f st) :=
  rfl

/-- When the flag reads true at every checked iteration, the loop is the
plain fold over the whole file list. -/
lemma runLoop_eq_runFold (running : Nat → Bool) (mode : Mode) (total : Nat) :
    ∀ (files : List FileEntry) (i : Nat) (st : RunState),
      (∀ j, j < files.length → running (i + j) = true) →
      runLoop running mode total files i st = runFold mode total files st := by
  intro files
  induction files with
  | nil => intro i st _; rfl
  | cons f rest ih =>
    intro i st h
    have h0 : running i = true := by simpa using h 0 (by simp)
    rw [runLoop, if_pos h0, runFold_cons]
    apply ih (i + 1)
    intro j hj
    have := h (j + 1) (by simpa using Nat.succ_lt_succ hj)
    rwa [show i + (j + 1) = i + 1 + j by omega] at this

/-- When the flag first reads false at the check for the `k`-th file
(`k` earlier iterations all read true), the loop is the fold over the
first `k` files followed by the cancellation log event. -/
lemma runLoop_cancel (running : Nat → Bool) (mode : Mode) (total : Nat) :
    ∀ (k : Nat) (files : List FileEntry) (i : Nat) (st : RunState),
      (∀ j, j < k → running (i + j) = true) → running (i + k) = false →
      k < files.length →
      runLoop running mode total files i st =
        { runFold mode total (files.take k) st with
          events := (runFold mode total (files.take k) st).events ++ [Event.logCancelled] } := by
  intro k
  induction k with
  | zero =>
    intro files i st _ hf hlen
    match files, hlen with
    | f :: rest, _ =>
      have hf' : running i = false := by simpa using hf
      rw [runLoop, if_neg (by simp [hf'])]
      simp [runFold]
  | succ k ih =>
    intro files i st h hf hlen
    match files, hlen with
    | f :: rest, hlen =>
      have h0 : running i = true := by simpa using h 0 (Nat.succ_pos k)
      rw [runLoop, if_pos h0, List.take_succ_cons, runFold_cons]
      apply ih rest (i + 1)
      · intro j hj
        have := h (j + 1) (Nat.succ_lt_succ hj)
        rwa [show i + (j + 1) = i + 1 + j by omega] at this
      · rwa [show i + 1 + k = i + (k + 1) by omega]
      · simpa using Nat.lt_of_succ_lt_succ hlen

end FileOrg

/-! ### Invariants of the fold -/

namespace FileOrg

lemma runFold_processed (mode : Mode) (total : Nat) :
    ∀ (files : List FileEntry) (st : RunState),
      (runFold mode total files st).processed = st.processed + files.length := by
  intro files
  induction files with
  | nil => intro st; simp [runFold]
  | cons f rest ih =>
    intro st
    rw [runFold_cons, ih, processFile_processed]
    simp [Nat.add_assoc, Nat.add_comm 1 rest.length]

lemma runFold_dirs_sub (mode : Mode) (total : Nat) :
    ∀ (files : List FileEntry) (st : RunState) (d : String),
      d ∈ st.dirs → d ∈ (runFold mode total files st).dirs := by
  intro files
  induction files with
  | nil => intro st d hd; simpa [runFold] using hd
  | cons f rest ih =>
    intro st d hd
    rw [runFold_cons]
    apply ih
    rcases h : f.moveResult with _ | e <;>
      by_cases hdir : destination_for mode f ∈ st.dirs <;>
        simp [processFile, h, hdir] <;> tauto

lemma runFold_moved (mode : Mode) (total : Nat) :
    ∀ (files : List FileEntry) (st : RunState),
      (runFold mode total files st).moved = st.moved ++ files.filterMap (movedEntry mode) := by
  intro files
  induction files with
  | nil => intro st; simp [runFold]
  | cons f rest ih =>
    intro st
    rw [runFold_cons, ih, processFile_moved, List.filterMap_cons]
    rcases h : f.moveResult with _ | e <;> simp [movedEntry, h]

lemma runFold_events_mem (mode : Mode) (total : Nat) :
    ∀ (files : List FileEntry) (st : RunState) (x : Event),
      x ∈ st.events → x ∈ (runFold mode total files st).events := by
  intro files
  induction files with
  | nil => intro st x hx; simpa [runFold] using hx
  | cons f rest ih =>
    intro st x hx
    rw [runFold_cons]
    exact ih _ x (by rw [processFile_events]; exact List.mem_append_left _ hx)

lemma runFold_count_finished (mode : Mode) (total : Nat) :
    ∀ (files : List FileEntry) (st : RunState),
      ((runFold mode total files st).events.count Event.finished) =
        st.events.count Event.finished := by
  intro files
  induction files with
  | nil => intro st; simp [runFold]
  | cons f rest ih =>
    intro st
    rw [runFold_cons, ih, processFile_events, List.count_append,
      List.count_eq_zero.mpr (stepDelta_finished_not_mem mode total f st)]
    simp

lemma runFold_error_mem (mode : Mode) (total : Nat) :
    ∀ (files : List FileEntry) (st : RunState) (f : FileEntry) (e : String),
      f ∈ files → f.moveResult = some e →
      Event.logMoveError f.name e ∈ (runFold mode total files st).events := by
  intro files
  induction files with
  | nil => intro st f e hf; exact absurd hf (List.not_mem_nil f)
  | cons g rest ih =>
    intro st f e hf he
    rw [runFold_cons]
    rcases List.mem_cons.mp hf with hfg | hfr
    · subst hfg
      apply runFold_events_mem
      rw [processFile_events]
      exact List.mem_append_right _ (stepDelta_error_mem mode total f st e he)
    · exact ih _ f e hfr he

lemma runFold_progressValues (mode : Mode) (total : Nat) :
    ∀ (files : List FileEntry) (st : RunState),
      progressValues (runFold mode total files st).events =
        progressValues st.events ++
          (List.range files.length).map (fun j => (st.processed + 1 + j) * 100 / total) := by
  intro files
  induction files with
  | nil => intro st; simp [runFold]
  | cons f rest ih =>
    intro st
    rw [runFold_cons, ih, processFile_processed, processFile_events, progressValues,
      List.filterMap_append]
    show progressValues st.events ++ progressValues (stepDelta mode total f st) ++ _ = _
    rw [progressValues_stepDelta, List.length_cons, List.range_succ_eq_map, List.map_cons,
      List.map_map, List.append_assoc, List.singleton_append]
    congr 1
    rw [show st.processed + 1 + 0 = st.processed + 1 by omega]
    congr 1
    apply List.map_congr_left
    intro j _
    simp only [Function.comp_apply, Nat.succ_eq_add_one]
    congr 2
    omega

end FileOrg

/-! ### Run-level decomposition -/

namespace FileOrg

/-- The mode of a run, fixed once (line 53). -/
def runMode (folder : Folder) : Mode := determine_mode (folder.files.map FileEntry.name)

/-- The worker state after the mode log and before the loop. -/
def initState (folder : Folder) : RunState :=
  { dirs := folder.dirs, moved := [], processed := 0,
    events := [match runMode folder with
               | .photo => Event.logPhotoMode
               | .default => Event.logDefaultMode] }

/-- The worker state when the loop exits, before the completion log. -/
def loopState (running : Nat → Bool) (folder : Folder) : RunState :=
  runLoop running (runMode folder) folder.files.length folder.files 0 (initState folder)

lemma run_nil (running : Nat → Bool) (folder : Folder) (h : folder.files = []) :
    Worker.run running folder =
      { dirs := folder.dirs, moved := [], processed := 0,
        events := [Event.logNoFiles, Event.finished] } := by
  simp [Worker.run, h]

lemma run_eq_of_ne_nil (running : Nat → Bool) (folder : Folder) (h : folder.files ≠ []) :
    Worker.run running folder =
      { loopState running folder with
        events := (loopState running folder).events ++ [Event.logDone, Event.finished] } := by
  have h0 : ¬(folder.files.length = 0) := by simpa [List.length_eq_zero] using h
  simp only [Worker.run, loopState, initState, runMode, if_neg h0]

/-- Every run either reads the flag true at every per-file check and
folds over the whole list, or has a first false read at some check
`k < n` and folds over the first `k` files, then logs cancellation. -/
lemma loopState_cases (running : Nat → Bool) (folder : Folder) :
    ((∀ j, j < folder.files.length → running j = true) ∧
      loopState running folder =
        runFold (runMode folder) folder.files.length folder.files (initState folder)) ∨
    (∃ k, k < folder.files.length ∧ (∀ j, j < k → running j = true) ∧ running k = false ∧
      loopState running folder =
        { runFold (runMode folder) folder.files.length (folder.files.take k)
            (initState folder) with
          events := (runFold (runMode folder) folder.files.length (folder.files.take k)
            (initState folder)).events ++ [Event.logCancelled] }) := by
  by_cases hc : ∀ j, j < folder.files.length → running j = true
  · left
    refine ⟨hc, ?_⟩
    apply runLoop_eq_runFold
    intro j hj
    simpa using hc j hj
  · right
    push_neg at hc
    obtain ⟨j0, hj0, hrj0⟩ := hc
    have hrj0' : running j0 = false := by
      cases hr : running j0
      · rfl
      · exact absurd hr hrj0
    have hex : ∃ j, running j = false := ⟨j0, hrj0'⟩
    refine ⟨Nat.find hex, lt_of_le_of_lt (Nat.find_min' hex hrj0') hj0, ?_, Nat.find_spec hex, ?_⟩
    · intro j hj
      have hnot := Nat.find_min hex hj
      cases hr : running j
      · exact absurd hr hnot
      · rfl
    · apply runLoop_cancel
      · intro j hj
        have hnot := Nat.find_min hex hj
        cases hr : running j
        · exact absurd hr hnot
        · simpa using hr
      · simpa using Nat.find_spec hex
      · exact lt_of_le_of_lt (Nat.find_min' hex hrj0') hj0

end FileOrg

namespace FileOrg

lemma count_finished_initState (folder : Folder) :
    (initState folder).events.count Event.finished = 0 := by
  cases h : runMode folder <;> simp [initState, h]

lemma progressValues_initState (folder : Folder) :
    progressValues (initState folder).events = [] := by
  cases h : runMode folder <;> simp [initState, h, progressValues]

/-- When the flag always reads true, the loop folds over all files. -/
lemma loopState_of_no_cancel (running : Nat → Bool) (folder : Folder)
    (hrun : ∀ i, running i = true) :
    loopState running folder =
      runFold (runMode folder) folder.files.length folder.files (initState folder) := by
  rcases loopState_cases running folder with ⟨_, heq⟩ | ⟨k, _, _, hk, _⟩
  · exact heq
  · rw [hrun k] at hk
    cases hk

end FileOrg

namespace FileOrg

/-- C7: every run of `Worker.run` — zero files, natural completion, or
cancellation — emits the completion signal exactly once, and a
zero-file run's event sequence is exactly the single no-files log
event followed by the completion signal (hence no progress events). -/
theorem c7_completion_once (running : Nat → Bool) (folder : Folder) :
    (Worker.run running folder).events.count Event.finished = 1 ∧
    (folder.files = [] →
      (Worker.run running folder).events = [Event.logNoFiles, Event.finished]) := by
  by_cases h : folder.files = []
  · rw [run_nil running folder h]
    exact ⟨by simp, fun _ => rfl⟩
  · refine ⟨?_, fun h' => absurd h' h⟩
    rw [run_eq_of_ne_nil running folder h]
    have hcount : (loopState running folder).events.count Event.finished = 0 := by
      rcases loopState_cases running folder with ⟨_, heq⟩ | ⟨k, _, _, _, heq⟩
      · rw [heq, runFold_count_finished]
        exact count_finished_initState folder
      · rw [heq]
        show (_ ++ [Event.logCancelled]).count Event.finished = 0
        rw [List.count_append, runFold_count_finished]
        simp [count_finished_initState folder]
    show ((loopState running folder).events ++ [Event.logDone, Event.finished]).count
      Event.finished = 1
    rw [List.count_append, hcount]
    rfl

/-- Witness for C7 at the empty folder. -/
theorem c7_completion_once_witness :
    (Worker.run (fun _ => true) { files := [], dirs := [] }).events.count Event.finished = 1 ∧
    (Worker.run (fun _ => true) ({ files := [], dirs := [] } : Folder)).events =
      [Event.logNoFiles, Event.finished] :=
  ⟨(c7_completion_once (fun _ => true) { files := [], dirs := [] }).1,
   (c7_completion_once (fun _ => true) { files := [], dirs := [] }).2 rfl⟩

/-- C6: in a run that is never cancelled, every file is still
processed no matter how many moves fail (`processed` reaches the full
file count), and each failed move leaves an error log event naming the
file and the failure reason. -/
theorem c6_move_failure_non_fatal (running : Nat → Bool) (folder : Folder)
    (hrun : ∀ i, running i = true) :
    (Worker.run running folder).processed = folder.files.length ∧
    (∀ f ∈ folder.files, ∀ e, f.moveResult = some e →
      Event.logMoveError f.name e ∈ (Worker.run running folder).events) := by
  by_cases h : folder.files = []
  · rw [run_nil running folder h, h]
    exact ⟨rfl, by simp⟩
  · rw [run_eq_of_ne_nil running folder h]
    have hloop := loopState_of_no_cancel running folder hrun
    constructor
    · show (loopState running folder).processed = _
      rw [hloop, runFold_processed]
      simp [initState]
    · intro f hf e he
      show Event.logMoveError f.name e ∈ (loopState running folder).events ++ _
      apply List.mem_append_left
      rw [hloop]
      exact runFold_error_mem _ _ _ _ f e hf he

/-- Witness for C6: one file whose move raises. -/
theorem c6_move_failure_non_fatal_witness :
    (Worker.run (fun _ => true)
      { files := [{ name := "a.txt", exif := .error, mtimeYear := "2020",
                    moveResult := some "denied" }], dirs := [] }).processed = 1 ∧
    Event.logMoveError "a.txt" "denied" ∈
      (Worker.run (fun _ => true)
        { files := [{ name := "a.txt", exif := .error, mtimeYear := "2020",
                      moveResult := some "denied" }], dirs := [] }).events := by
  have h := c6_move_failure_non_fatal (fun _ => true)
    { files := [{ name := "a.txt", exif := .error, mtimeYear := "2020",
                  moveResult := some "denied" }], dirs := [] } (fun _ => rfl)
  exact ⟨h.1, h.2 _ (List.mem_singleton.mpr rfl) "denied" rfl⟩

end FileOrg

namespace FileOrg

lemma progressValues_append (a b : List Event) :
    progressValues (a ++ b) = progressValues a ++ progressValues b :=
  List.filterMap_append a b _

/-- The progress percentages a run emits after `m` processed files out
of `n`: `(j+1)*100/n` for `j = 0, …, m-1`. -/
def progressSeq (n m : Nat) : List Nat :=
  (List.range m).map (fun j => (j + 1) * 100 / n)

lemma pv_runFold_init (mode : Mode) (folder : Folder) (l : List FileEntry) :
    progressValues (runFold mode folder.files.length l (initState folder)).events =
      progressSeq folder.files.length l.length := by
  rw [runFold_progressValues, progressValues_initState, progressSeq]
  simp only [List.nil_append]
  apply List.map_congr_left
  intro j _
  congr 2
  rw [show (initState folder).processed = 0 from rfl]
  omega

lemma progressSeq_pairwise (n m : Nat) : (progressSeq n m).Pairwise (· ≤ ·) := by
  refine List.Pairwise.map _ ?_ (List.pairwise_lt_range m)
  intro a b hab
  exact Nat.div_le_div_right (Nat.mul_le_mul_right 100 (by omega))

lemma progressSeq_le (n m : Nat) (hm : m ≤ n) : ∀ p ∈ progressSeq n m, p ≤ 100 := by
  intro p hp
  obtain ⟨j, hj, rfl⟩ := List.mem_map.mp hp
  have hjm : j < m := List.mem_range.mp hj
  have hn : 0 < n := by omega
  calc (j + 1) * 100 / n ≤ n * 100 / n :=
        Nat.div_le_div_right (Nat.mul_le_mul_right 100 (by omega))
    _ = 100 := Nat.mul_div_cancel_left 100 hn

lemma progressSeq_getLast (n : Nat) (hn : n ≠ 0) :
    (progressSeq n n).getLast? = some 100 := by
  obtain ⟨m, rfl⟩ : ∃ m, n = m + 1 := ⟨n - 1, by omega⟩
  rw [progressSeq, List.range_succ, List.map_append, List.map_singleton,
    List.getLast?_concat]
  rw [Nat.mul_div_cancel_left 100 (Nat.succ_pos m)]

/-- The progress values of any run form the truncated-percentage
sequence for some number `m ≤ n` of processed files, with `m = n` when
the flag never reads false. -/
lemma progressValues_run (running : Nat → Bool) (folder : Folder) :
    ∃ m, m ≤ folder.files.length ∧
      progressValues (Worker.run running folder).events =
        progressSeq folder.files.length m ∧
      ((∀ i, running i = true) → m = folder.files.length) := by
  by_cases h : folder.files = []
  · exact ⟨0, Nat.zero_le _, by rw [run_nil running folder h]; rfl, fun _ => by simp [h]⟩
  · rw [run_eq_of_ne_nil running folder h]
    rcases loopState_cases running folder with ⟨hall, heq⟩ | ⟨k, hk, _, hkf, heq⟩
    · refine ⟨folder.files.length, le_refl _, ?_, fun _ => rfl⟩
      show progressValues ((loopState running folder).events ++
        [Event.logDone, Event.finished]) = _
      rw [progressValues_append, heq, pv_runFold_init]
      simp [progressValues]
    · refine ⟨k, le_of_lt hk, ?_, fun hrun => absurd (hrun k) (by simp [hkf])⟩
      show progressValues ((loopState running folder).events ++
        [Event.logDone, Event.finished]) = _
      rw [progressValues_append, heq]
      show progressValues ((runFold (runMode folder) folder.files.length
        (folder.files.take k) (initState folder)).events ++ [Event.logCancelled]) ++ _ = _
      rw [progressValues_append, pv_runFold_init, List.length_take,
        Nat.min_eq_left (le_of_lt hk)]
      simp [progressValues]

/-- C4: in every run with at least one file the emitted progress values
are monotonically non-decreasing, each lies in `0..100` (they are the
truncated percentages `processed*100/total`), and a run whose flag
never reads false ends with a final progress value of exactly 100 —
regardless of how many per-file moves failed. -/
theorem c4_progress_monotone_complete (running : Nat → Bool) (folder : Folder)
    (h : folder.files ≠ []) :
    (progressValues (Worker.run running folder).events).Pairwise (· ≤ ·) ∧
    (∀ p ∈ progressValues (Worker.run running folder).events, p ≤ 100) ∧
    ((∀ i, running i = true) →
      (progressValues (Worker.run running folder).events).getLast? = some 100) := by
  obtain ⟨m, hm, hpv, hfull⟩ := progressValues_run running folder
  refine ⟨?_, ?_, ?_⟩
  · rw [hpv]
    exact progressSeq_pairwise _ _
  · rw [hpv]
    exact progressSeq_le _ _ hm
  · intro hrun
    rw [hpv, hfull hrun]
    exact progressSeq_getLast _ (by simpa [List.length_eq_zero] using h)

/-- Witness for C4: a three-file run, never cancelled, with one failing
move. -/
theorem c4_progress_monotone_complete_witness :
    (progressValues (Worker.run (fun _ => true)
      { files := [{ name := "a.txt", exif := .error, mtimeYear := "2019", moveResult := none },
                  { name := "b.pdf", exif := .error, mtimeYear := "2020",
                    moveResult := some "denied" },
                  { name := "c.txt", exif := .error, mtimeYear := "2021", moveResult := none }],
        dirs := [] }).events).Pairwise (· ≤ ·) ∧
    (∀ p ∈ progressValues (Worker.run (fun _ => true)
      { files := [{ name := "a.txt", exif := .error, mtimeYear := "2019", moveResult := none },
                  { name := "b.pdf", exif := .error, mtimeYear := "2020",
                    moveResult := some "denied" },
                  { name := "c.txt", exif := .error, mtimeYear := "2021", moveResult := none }],
        dirs := [] }).events, p ≤ 100) ∧
    (progressValues (Worker.run (fun _ => true)
      { files := [{ name := "a.txt", exif := .error, mtimeYear := "2019", moveResult := none },
                  { name := "b.pdf", exif := .error, mtimeYear := "2020",
                    moveResult := some "denied" },
                  { name := "c.txt", exif := .error, mtimeYear := "2021", moveResult := none }],
        dirs := [] }).events).getLast? = some 100 := by
  have h := c4_progress_monotone_complete (fun _ => true)
    { files := [{ name := "a.txt", exif := .error, mtimeYear := "2019", moveResult := none },
                { name := "b.pdf", exif := .error, mtimeYear := "2020",
                  moveResult := some "denied" },
                { name := "c.txt", exif := .error, mtimeYear := "2021", moveResult := none }],
      dirs := [] } (by decide)
  exact ⟨h.1, h.2.1, h.2.2 (fun _ => rfl)⟩

end FileOrg

namespace FileOrg

lemma filterMap_movedEntry_all_success (mode : Mode) :
    ∀ (l : List FileEntry), (∀ f ∈ l, f.moveResult = none) →
      l.filterMap (movedEntry mode) =
        l.map (fun f => (f.name, destination_for mode f)) := by
  intro l
  induction l with
  | nil => intro _; rfl
  | cons f rest ih =>
    intro h
    have hf := h f (List.mem_cons_self f rest)
    rw [List.filterMap_cons, List.map_cons]
    simp only [movedEntry, hf]
    rw [ih fun g hg => h g (List.mem_cons_of_mem f hg)]

/-- C8: if the flag reads true at the first `k` per-file checks and
false at check `k` (with `k < n` files and all moves succeeding, file
names being distinct as directory listings are), then exactly the first
`k` files are moved, the cancellation log event is emitted, none of the
remaining `n - k` files is touched, and the completion signal fires
with `processed = k`. -/
theorem c8_cancellation (running : Nat → Bool) (folder : Folder) (k : Nat)
    (h1 : ∀ j, j < k → running j = true) (h2 : running k = false)
    (h3 : k < folder.files.length)
    (h4 : ∀ f ∈ folder.files, f.moveResult = none)
    (h5 : (folder.files.map FileEntry.name).Nodup) :
    (Worker.run running folder).processed = k ∧
    (Worker.run running folder).moved =
      (folder.files.take k).map
        (fun f => (f.name, destination_for (runMode folder) f)) ∧
    (Worker.run running folder).moved.length = k ∧
    Event.logCancelled ∈ (Worker.run running folder).events ∧
    Event.finished ∈ (Worker.run running folder).events ∧
    (∀ f ∈ folder.files.drop k, ∀ d, (f.name, d) ∉ (Worker.run running folder).moved) := by
  have hne : folder.files ≠ [] := by
    intro hnil
    rw [hnil] at h3
    exact absurd h3 (by simp)
  rw [run_eq_of_ne_nil running folder hne]
  have hloop : loopState running folder =
      { runFold (runMode folder) folder.files.length (folder.files.take k)
          (initState folder) with
        events := (runFold (runMode folder) folder.files.length (folder.files.take k)
          (initState folder)).events ++ [Event.logCancelled] } := by
    apply runLoop_cancel
    · intro j hj
      simpa using h1 j hj
    · simpa using h2
    · exact h3
  have hmoved : (loopState running folder).moved =
      (folder.files.take k).map (fun f => (f.name, destination_for (runMode folder) f)) := by
    rw [hloop]
    show (runFold _ _ _ _).moved = _
    rw [runFold_moved,
      filterMap_movedEntry_all_success _ _ (fun g hg => h4 g (List.take_subset k _ hg))]
    rfl
  refine ⟨?_, ?_, ?_, ?_, ?_, ?_⟩
  · show (loopState running folder).processed = k
    rw [hloop]
    show (runFold _ _ _ _).processed = k
    rw [runFold_processed]
    show 0 + (folder.files.take k).length = k
    rw [List.length_take, Nat.min_eq_left (le_of_lt h3)]
    omega
  · exact hmoved
  · show (loopState running folder).moved.length = k
    rw [hmoved, List.length_map, List.length_take, Nat.min_eq_left (le_of_lt h3)]
  · show Event.logCancelled ∈ (loopState running folder).events ++ _
    apply List.mem_append_left
    rw [hloop]
    show Event.logCancelled ∈ _ ++ [Event.logCancelled]
    simp
  · show Event.finished ∈ (loopState running folder).events ++ [Event.logDone, Event.finished]
    simp
  · intro f hf d hmem
    have hmem' : (f.name, d) ∈ (loopState running folder).moved := hmem
    rw [hmoved] at hmem'
    obtain ⟨g, hg, hgd⟩ := List.mem_map.mp hmem'
    have hname : g.name = f.name := by
      have := congrArg Prod.fst hgd
      simpa using this
    have hd1 : f.name ∈ (folder.files.take k).map FileEntry.name :=
      hname ▸ List.mem_map_of_mem FileEntry.name hg
    have hd2 : f.name ∈ (folder.files.drop k).map FileEntry.name :=
      List.mem_map_of_mem FileEntry.name hf
    have hnd := h5
    rw [← List.take_append_drop k folder.files, List.map_append] at hnd
    exact (List.nodup_append.mp hnd).2.2 hd1 hd2

/-- Witness for C8: three photo files, flag first reads false at the
second check. -/
theorem c8_cancellation_witness :
    (Worker.run (fun i => i == 0)
      { files := [{ name := "a.jpg", exif := .error, mtimeYear := "2020", moveResult := none },
                  { name := "b.jpg", exif := .error, mtimeYear := "2021", moveResult := none },
                  { name := "c.jpg", exif := .error, mtimeYear := "2022", moveResult := none }],
        dirs := [] }).processed = 1 ∧
    (Worker.run (fun i => i == 0)
      { files := [{ name := "a.jpg", exif := .error, mtimeYear := "2020", moveResult := none },
                  { name := "b.jpg", exif := .error, mtimeYear := "2021", moveResult := none },
                  { name := "c.jpg", exif := .error, mtimeYear := "2022", moveResult := none }],
        dirs := [] }).moved = [("a.jpg", "Фотографии 2020")] ∧
    Event.logCancelled ∈ (Worker.run (fun i => i == 0)
      { files := [{ name := "a.jpg", exif := .error, mtimeYear := "2020", moveResult := none },
                  { name := "b.jpg", exif := .error, mtimeYear := "2021", moveResult := none },
                  { name := "c.jpg", exif := .error, mtimeYear := "2022", moveResult := none }],
        dirs := [] }).events ∧
    Event.finished ∈ (Worker.run (fun i => i == 0)
      { files := [{ name := "a.jpg", exif := .error, mtimeYear := "2020", moveResult := none },
                  { name := "b.jpg", exif := .error, mtimeYear := "2021", moveResult := none },
                  { name := "c.jpg", exif := .error, mtimeYear := "2022", moveResult := none }],
        dirs := [] }).events := by
  have h := c8_cancellation (fun i => i == 0)
    { files := [{ name := "a.jpg", exif := .error, mtimeYear := "2020", moveResult := none },
                { name := "b.jpg", exif := .error, mtimeYear := "2021", moveResult := none },
                { name := "c.jpg", exif := .error, mtimeYear := "2022", moveResult := none }],
      dirs := [] } 1
    (by decide) (by decide) (by decide) (by decide) (by decide)
  refine ⟨h.1, ?_, h.2.2.2.1, h.2.2.2.2.1⟩
  rw [h.2.1]
  decide

end FileOrg

namespace FileOrg

/-- In a never-cancelled run where every move succeeds, the moved list
is exactly the whole file list with its destinations. -/
lemma run_moved_all_success (running : Nat → Bool) (folder : Folder)
    (h1 : ∀ i, running i = true)
    (h2 : ∀ f ∈ folder.files, f.moveResult = none) :
    (Worker.run running folder).moved =
      folder.files.map (fun f => (f.name, destination_for (runMode folder) f)) := by
  by_cases h : folder.files = []
  · rw [run_nil running folder h, h]
    rfl
  · rw [run_eq_of_ne_nil running folder h]
    show (loopState running folder).moved = _
    rw [loopState_of_no_cancel running folder h1, runFold_moved,
      filterMap_movedEntry_all_success _ _ h2]
    rfl

/-- C9: organize is idempotent on an already-organized folder.  A
never-cancelled, all-moves-succeeding run whose files all have a
genuine (non-empty) destination subfolder — i.e. none is the
trailing-dot corner where `ext = ''` makes the move a self-targeting
no-op — empties the folder's top level of regular files, and a second
run on the result enumerates zero files, moves nothing, and emits only
the zero-files notice followed by the completion signal. -/
theorem c9_idempotent (running running2 : Nat → Bool) (folder : Folder)
    (h1 : ∀ i, running i = true)
    (h2 : ∀ f ∈ folder.files, f.moveResult = none)
    (h3 : ∀ f ∈ folder.files, destination_for (runMode folder) f ≠ "") :
    (folderAfter running folder).files = [] ∧
    (Worker.run running2 (folderAfter running folder)).moved = [] ∧
    (Worker.run running2 (folderAfter running folder)).events =
      [Event.logNoFiles, Event.finished] := by
  have hempty : (folderAfter running folder).files = [] := by
    show folder.files.filter _ = []
    rw [List.filter_eq_nil_iff]
    intro f hf
    rw [run_moved_all_success running folder h1 h2]
    simp only [Bool.not_eq_true', Bool.not_eq_false]
    rw [List.any_eq_true]
    exact ⟨(f.name, destination_for (runMode folder) f),
      List.mem_map_of_mem _ hf, by simp [h3 f hf]⟩
  have hrun2 := run_nil running2 (folderAfter running folder) hempty
  exact ⟨hempty, by rw [hrun2], by rw [hrun2]⟩

/-- Witness for C9 at a concrete two-file folder. -/
theorem c9_idempotent_witness :
    (folderAfter (fun _ => true)
      { files := [{ name := "report.pdf", exif := .error, mtimeYear := "2020",
                    moveResult := none },
                  { name := "notes.txt", exif := .error, mtimeYear := "2021",
                    moveResult := none }], dirs := [] }).files = [] ∧
    (Worker.run (fun _ => true) (folderAfter (fun _ => true)
      { files := [{ name := "report.pdf", exif := .error, mtimeYear := "2020",
                    moveResult := none },
                  { name := "notes.txt", exif := .error, mtimeYear := "2021",
                    moveResult := none }], dirs := [] })).moved = [] ∧
    (Worker.run (fun _ => true) (folderAfter (fun _ => true)
      { files := [{ name := "report.pdf", exif := .error, mtimeYear := "2020",
                    moveResult := none },
                  { name := "notes.txt", exif := .error, mtimeYear := "2021",
                    moveResult := none }], dirs := [] })).events =
      [Event.logNoFiles, Event.finished] :=
  c9_idempotent (fun _ => true) (fun _ => true)
    { files := [{ name := "report.pdf", exif := .error, mtimeYear := "2020",
                  moveResult := none },
                { name := "notes.txt", exif := .error, mtimeYear := "2021",
                  moveResult := none }], dirs := [] }
    (fun _ => rfl) (by decide) (by decide)

end FileOrg

namespace FileOrg

/-- C1 counterexample: an entry with no `'.'` does not disqualify the
list from Photo mode.  With `files = ["README"]` the generator in line
53 (`… for f in files if '.' in f`) is empty, `all(...)` is vacuously
true, and the mode is Photo — the claim requires Default here. -/
theorem c1_counterexample :
    determine_mode ["README"] = Mode.photo ∧ hasDot "README" = false := by
  decide

/-- C1 amended: for every non-empty file list, `determine_mode` returns
Photo iff every entry that contains a `'.'` has its lower-cased final
extension in the photo-extension set; entries containing no `'.'` are
skipped by the test rather than disqualifying (in particular a list
whose entries all lack a `'.'` is classified Photo). -/
theorem c1_amended (files : List String) (_h : files ≠ []) :
    determine_mode files = Mode.photo ↔
      ∀ f ∈ files, hasDot f = true → lowerExt f ∈ PHOTO_EXTENSIONS := by
  unfold determine_mode
  split
  case isTrue hall =>
    simp only [true_iff]
    intro f hf hd
    have hfall := List.all_eq_true.mp hall f hf
    rw [hd] at hfall
    simpa using hfall
  case isFalse hnall =>
    constructor
    · intro hph
      exact absurd hph (by decide)
    · intro hR
      exfalso
      apply hnall
      rw [List.all_eq_true]
      intro f hf
      cases hd : hasDot f
      · simp [hd]
      · have hmem := hR f hf hd
        simp [hmem]

/-- Witness for C1 amended, at a one-element photo list. -/
theorem c1_amended_witness :
    determine_mode ["x.jpg"] = Mode.photo ↔
      ∀ f ∈ ["x.jpg"], hasDot f = true → lowerExt f ∈ PHOTO_EXTENSIONS :=
  c1_amended ["x.jpg"] (by decide)

/-- C2 counterexample: line 70 does not lower-case the extension, so in
a Default-mode run the file `A.TXT` is moved to subfolder `TXT`, while
the claim's lower-cased destination would be `txt`. -/
theorem c2_counterexample :
    (Worker.run (fun _ => true)
      { files := [{ name := "A.TXT", exif := .error, mtimeYear := "2020",
                    moveResult := none }], dirs := [] }).moved = [("A.TXT", "TXT")] ∧
    determine_mode ["A.TXT"] = Mode.default ∧
    pyLower ((pySplit "A.TXT" '.').getLastD "") = "txt" ∧
    ("TXT" : String) ≠ "txt" := by
  decide

/-- C2 amended: in a never-cancelled Default-mode run, every file whose
move succeeds is recorded as moved to the subfolder named by the
substring of its filename after the last `'.'` exactly as written
(case preserved), or to the no-extension sentinel folder
`"без_расширения"` when the filename contains no `'.'`. -/
theorem c2_amended (running : Nat → Bool) (folder : Folder)
    (hrun : ∀ i, running i = true)
    (hmode : runMode folder = Mode.default) :
    ∀ f ∈ folder.files, f.moveResult = none →
      (f.name,
        if hasDot f.name then (pySplit f.name '.').getLastD "" else "без_расширения")
        ∈ (Worker.run running folder).moved := by
  intro f hf hmv
  have hne : folder.files ≠ [] := fun hnil => by simp [hnil] at hf
  rw [run_eq_of_ne_nil running folder hne]
  show _ ∈ (loopState running folder).moved
  rw [loopState_of_no_cancel running folder hrun, runFold_moved, hmode]
  apply List.mem_append_right
  exact List.mem_filterMap.mpr ⟨f, hf, by simp [movedEntry, hmv, destination_for]⟩

/-- Witness for C2 amended: `report.pdf` lands in `pdf`. -/
theorem c2_amended_witness :
    ("report.pdf", "pdf") ∈ (Worker.run (fun _ => true)
      { files := [{ name := "report.pdf", exif := .error, mtimeYear := "2020",
                    moveResult := none }], dirs := [] }).moved := by
  have h := c2_amended (fun _ => true)
    { files := [{ name := "report.pdf", exif := .error, mtimeYear := "2020",
                  moveResult := none }], dirs := [] }
    (fun _ => rfl) (by decide)
    { name := "report.pdf", exif := .error, mtimeYear := "2020", moveResult := none }
    (List.mem_singleton.mpr rfl) rfl
  have hdest : (if hasDot "report.pdf" then (pySplit "report.pdf" '.').getLastD ""
      else "без_расширения") = "pdf" := by decide
  rwa [hdest] at h

end FileOrg

namespace FileOrg

/-- C3: in a never-cancelled Photo-mode run, every successfully moved
file is recorded with destination `"Фотографии {year}"` (the spec's
"Photos {year}"), where the year is: the 4-digit prefix of the
`DateTimeOriginal` metadata value when the EXIF read succeeds, the tag
is present, and the value starts with a 4-digit year followed by `':'`;
and otherwise (read error, or no such tag) the file's
modification-time year. -/
theorem c3_photo_destination (running : Nat → Bool) (folder : Folder)
    (hrun : ∀ i, running i = true)
    (hmode : runMode folder = Mode.photo) :
    ∀ f ∈ folder.files,
      (f.moveResult = none →
        (f.name, "Фотографии " ++ get_image_year f.exif f.mtimeYear)
          ∈ (Worker.run running folder).moved) ∧
      (∀ items value y rest, f.exif = ExifOutcome.ok items →
        findDateTimeOriginal items = some value →
        value = y ++ ":" ++ rest → y.length = 4 → (∀ c ∈ y.data, c.isDigit) →
        get_image_year f.exif f.mtimeYear = y) ∧
      (f.exif = ExifOutcome.error → get_image_year f.exif f.mtimeYear = f.mtimeYear) ∧
      (∀ items, f.exif = ExifOutcome.ok items → findDateTimeOriginal items = none →
        get_image_year f.exif f.mtimeYear = f.mtimeYear) := by
  intro f hf
  refine ⟨?_, ?_, ?_, ?_⟩
  · intro hmv
    have hne : folder.files ≠ [] := fun hnil => by simp [hnil] at hf
    rw [run_eq_of_ne_nil running folder hne]
    show _ ∈ (loopState running folder).moved
    rw [loopState_of_no_cancel running folder hrun, runFold_moved, hmode]
    apply List.mem_append_right
    exact List.mem_filterMap.mpr ⟨f, hf, by simp [movedEntry, hmv, destination_for]⟩
  · intro items value y rest hex hfind hval _ hdig
    rw [hex]
    simp only [get_image_year, hfind]
    rw [hval]
    exact pySplit_headD y rest (fun hcol => absurd (hdig ':' hcol) (by decide))
  · intro hex
    rw [hex]
    rfl
  · intro items hex hfind
    rw [hex]
    simp [get_image_year, hfind]

/-- Witness for C3: a photo with well-formed EXIF date lands in
`Фотографии 2020`. -/
theorem c3_photo_destination_witness :
    get_image_year (ExifOutcome.ok [("DateTimeOriginal", "2020:03:01 10:00:00")]) "1999" =
      "2020" ∧
    ("a.jpg", "Фотографии 2020") ∈ (Worker.run (fun _ => true)
      { files := [{ name := "a.jpg",
                    exif := ExifOutcome.ok [("DateTimeOriginal", "2020:03:01 10:00:00")],
                    mtimeYear := "1999", moveResult := none }], dirs := [] }).moved := by
  have h := c3_photo_destination (fun _ => true)
    { files := [{ name := "a.jpg",
                  exif := ExifOutcome.ok [("DateTimeOriginal", "2020:03:01 10:00:00")],
                  mtimeYear := "1999", moveResult := none }], dirs := [] }
    (fun _ => rfl) (by decide)
    { name := "a.jpg", exif := ExifOutcome.ok [("DateTimeOriginal", "2020:03:01 10:00:00")],
      mtimeYear := "1999", moveResult := none }
    (List.mem_singleton.mpr rfl)
  have hyear := h.2.1 [("DateTimeOriginal", "2020:03:01 10:00:00")]
    "2020:03:01 10:00:00" "2020" "03:01 10:00:00" rfl rfl (by decide) (by decide) (by decide)
  have hmem := h.1 rfl
  rw [hyear] at hmem
  have hstr : ("Фотографии " ++ "2020" : String) = "Фотографии 2020" := by decide
  rw [hstr] at hmem
  exact ⟨hyear, hmem⟩

/-- C5: `get_image_year` never fails: its result is always either the
modification-time fallback year (in particular whenever the metadata
read raises, e.g. on a corrupt or non-image file, or finds no
`DateTimeOriginal` tag) or the parsed prefix of a found tag value. -/
theorem c5_no_error (exif : ExifOutcome) (m : String) :
    (exif = ExifOutcome.error → get_image_year exif m = m) ∧
    (∀ items, exif = ExifOutcome.ok items → findDateTimeOriginal items = none →
      get_image_year exif m = m) ∧
    (get_image_year exif m = m ∨
      ∃ items value, exif = ExifOutcome.ok items ∧
        findDateTimeOriginal items = some value ∧
        get_image_year exif m = (pySplit value ':').headD "") := by
  refine ⟨?_, ?_, ?_⟩
  · intro hex
    rw [hex]
    rfl
  · intro items hex hfind
    rw [hex]
    simp [get_image_year, hfind]
  · cases exif with
    | error => exact Or.inl rfl
    | ok items =>
      cases hfind : findDateTimeOriginal items with
      | none => exact Or.inl (by simp [get_image_year, hfind])
      | some value =>
        exact Or.inr ⟨items, value, rfl, hfind, by simp [get_image_year, hfind]⟩

/-- Witness for C5 at the error outcome. -/
theorem c5_no_error_witness :
    get_image_year ExifOutcome.error "2021" = "2021" :=
  (c5_no_error ExifOutcome.error "2021").1 rfl

/-- C10 (implicit behavior): when the `DateTimeOriginal` value is
present, `get_image_year` returns the raw substring before the first
`':'` with no validation; for the malformed value `"hello:world"` the
returned "year" — and hence the destination folder name — is the raw
prefix `hello`, with no error and no fallback to the modification-time
year. -/
theorem c10_raw_prefix :
    (∀ items value m, findDateTimeOriginal items = some value →
      get_image_year (ExifOutcome.ok items) m = (pySplit value ':').headD "") ∧
    get_image_year (ExifOutcome.ok [("DateTimeOriginal", "hello:world")]) "2001" = "hello" ∧
    ("hello" : String) ≠ "2001" ∧
    destination_for Mode.photo
      { name := "x.jpg", exif := ExifOutcome.ok [("DateTimeOriginal", "hello:world")],
        mtimeYear := "2001", moveResult := none } = "Фотографии hello" := by
  refine ⟨?_, by decide, by decide, by decide⟩
  intro items value m hfind
  simp [get_image_year, hfind]

/-- Witness for C10's universally quantified part at a concrete
malformed value. -/
theorem c10_raw_prefix_witness :
    get_image_year (ExifOutcome.ok [("DateTimeOriginal", "hello:world")]) "2001" =
      (pySplit "hello:world" ':').headD "" :=
  c10_raw_prefix.1 [("DateTimeOriginal", "hello:world")] "hello:world" "2001" rfl

end FileOrg
